import Mathlib

/-!
Verification of the SECInsightHub repository: a shallow embedding in Lean 4
of the server storage layer (document chunking, search, recent documents),
the Express API routes, and the client annotation-anchoring logic
(text selection offsets, page arithmetic, DOM re-highlighting), with
theorems settling the frozen specification claims.

Strings from the TypeScript source are modelled as lists of characters;
database rows as structures; network and database effects as explicit
inputs and outputs of the route functions.
-/

namespace SECInsightHub

/-! ## Chunking (server/storage.ts, DatabaseStorage.updateDocumentContent) -/

/-- Chunk size shared by the storage layer and the document viewer:
both define `DEFAULT_CHUNK_SIZE = 1 * 1024 * 1024` (1MB in characters). -/
def DEFAULT_CHUNK_SIZE : Nat := 1 * 1024 * 1024

/-- JS `String.prototype.substring` on a list of characters: indices are
clamped to the string bounds and swapped when the first exceeds the second;
the result holds the characters from the smaller index up to, excluding,
the larger index. -/
def jsSubstring (s : List Char) (start stop : Nat) : List Char :=
  (s.take (max start stop)).drop (min start stop)

/-- A row of the document_chunks table as built in
`DatabaseStorage.updateDocumentContent` (type `InsertDocumentChunk`;
createdAt is set by the database and not modelled). -/
structure InsertDocumentChunk where
  documentId : Nat
  pageNumber : Nat
  content : List Char
  deriving DecidableEq, Repr

/-- The number of chunks `updateDocumentContent` computes:
`Math.ceil(content.length / DEFAULT_CHUNK_SIZE)`. -/
def numChunks (content : List Char) : Nat :=
  (content.length + (DEFAULT_CHUNK_SIZE - 1)) / DEFAULT_CHUNK_SIZE

/-- The chunk rows `updateDocumentContent` inserts for document `id`:
for each `i` below `numChunks content`, a row with 1-based page number
`i + 1` holding `content.substring(i * DEFAULT_CHUNK_SIZE, (i + 1) * DEFAULT_CHUNK_SIZE)`. -/
def updateDocumentContentChunks (id : Nat) (content : List Char) :
    List InsertDocumentChunk :=
  (List.range (numChunks content)).map fun i =>
    { documentId := id
      pageNumber := i + 1
      content := jsSubstring content (i * DEFAULT_CHUNK_SIZE)
        ((i + 1) * DEFAULT_CHUNK_SIZE) }

/-- The totalPages value `updateDocumentContent` writes back to the
documents row: `numChunks > 0 ? numChunks : 1`. -/
def updateDocumentContentTotalPages (content : List Char) : Nat :=
  if 0 < numChunks content then numChunks content else 1

theorem jsSubstring_eq_drop_take (s : List Char) (i j : Nat) (h : i ≤ j) :
    jsSubstring s i j = (s.drop i).take (j - i) := by
  unfold jsSubstring
  rw [Nat.max_eq_right h, Nat.min_eq_left h, List.drop_take]

theorem flatten_range_chunks (cs : Nat) (l : List Char) (n : Nat) :
    (((List.range n).map fun i => (l.drop (i * cs)).take cs).flatten)
      = l.take (n * cs) := by
  induction n with
  | zero => simp
  | succ m ih =>
    rw [List.range_succ, List.map_append, List.flatten_append, ih]
    simp only [List.map_cons, List.map_nil, List.flatten_cons, List.flatten_nil,
      List.append_nil]
    rw [Nat.succ_mul, List.take_add]

theorem numChunks_mul_ge (content : List Char) :
    content.length ≤ DEFAULT_CHUNK_SIZE * numChunks content := by
  unfold numChunks DEFAULT_CHUNK_SIZE
  have h := Nat.div_add_mod (content.length + (1 * 1024 * 1024 - 1)) (1 * 1024 * 1024)
  have h2 : (content.length + (1 * 1024 * 1024 - 1)) % (1 * 1024 * 1024)
      < 1 * 1024 * 1024 := Nat.mod_lt _ (by norm_num)
  omega

theorem numChunks_mul_lt (content : List Char) :
    DEFAULT_CHUNK_SIZE * numChunks content < content.length + DEFAULT_CHUNK_SIZE := by
  unfold numChunks DEFAULT_CHUNK_SIZE
  have h := Nat.div_add_mod (content.length + (1 * 1024 * 1024 - 1)) (1 * 1024 * 1024)
  omega

theorem chunk_before_last_full (content : List Char) (k : Nat)
    (hk : k + 1 < numChunks content) :
    k * DEFAULT_CHUNK_SIZE + DEFAULT_CHUNK_SIZE ≤ content.length := by
  have h1 : DEFAULT_CHUNK_SIZE * (k + 2) ≤ DEFAULT_CHUNK_SIZE * numChunks content :=
    Nat.mul_le_mul_left _ (by omega)
  have h2 := numChunks_mul_lt content
  unfold DEFAULT_CHUNK_SIZE at h1 h2 ⊢
  omega

theorem updateDocumentContentChunks_getElem (id : Nat) (content : List Char)
    (k : Nat) (hk : k < numChunks content) :
    (updateDocumentContentChunks id content)[k]? =
      some { documentId := id, pageNumber := k + 1,
             content := (content.drop (k * DEFAULT_CHUNK_SIZE)).take
               DEFAULT_CHUNK_SIZE } := by
  have hsub : jsSubstring content (k * DEFAULT_CHUNK_SIZE) ((k + 1) * DEFAULT_CHUNK_SIZE)
      = (content.drop (k * DEFAULT_CHUNK_SIZE)).take DEFAULT_CHUNK_SIZE := by
    rw [jsSubstring_eq_drop_take content _ _
      (Nat.mul_le_mul_right _ (Nat.le_succ k))]
    congr 1
    rw [Nat.succ_mul]
    omega
  simp only [updateDocumentContentChunks, List.getElem?_map, List.getElem?_range, hk,
    if_pos, Option.map_some', hsub]

/-- C1: `updateDocumentContent` stores a length-n content as
`ceil(n / 1048576)` chunks (the count conjuncts characterize the ceiling);
the chunk at 0-based index `k` carries 1-based page number `k + 1` and holds
exactly the characters from offset `k * 1048576` up to `(k + 1) * 1048576`;
every chunk except possibly the last holds exactly `1048576` characters;
and the chunks, in increasing page-number order, concatenate back to the
original content. -/
theorem updateDocumentContent_chunking (id : Nat) (content : List Char) :
    (updateDocumentContentChunks id content).length = numChunks content
    ∧ content.length ≤ DEFAULT_CHUNK_SIZE * numChunks content
    ∧ DEFAULT_CHUNK_SIZE * numChunks content < content.length + DEFAULT_CHUNK_SIZE
    ∧ (∀ k, k < numChunks content →
        (updateDocumentContentChunks id content)[k]? =
          some { documentId := id, pageNumber := k + 1,
                 content := (content.drop (k * DEFAULT_CHUNK_SIZE)).take
                   DEFAULT_CHUNK_SIZE })
    ∧ (∀ k, k + 1 < numChunks content →
        ((updateDocumentContentChunks id content)[k]?.map fun c => c.content.length)
          = some DEFAULT_CHUNK_SIZE)
    ∧ ((updateDocumentContentChunks id content).map fun c => c.content).flatten
        = content := by
  refine ⟨by simp [updateDocumentContentChunks], numChunks_mul_ge content,
    numChunks_mul_lt content, ?_, ?_, ?_⟩
  · intro k hk
    exact updateDocumentContentChunks_getElem id content k hk
  · intro k hk
    have hk' : k < numChunks content := Nat.lt_of_succ_lt hk
    rw [updateDocumentContentChunks_getElem id content k hk']
    simp only [Option.map_some', List.length_take, List.length_drop]
    have hlen := chunk_before_last_full content k hk
    congr 1
    omega
  · have hmap : ((updateDocumentContentChunks id content).map fun c => c.content)
        = (List.range (numChunks content)).map fun i =>
            (content.drop (i * DEFAULT_CHUNK_SIZE)).take DEFAULT_CHUNK_SIZE := by
      simp only [updateDocumentContentChunks, List.map_map]
      refine List.map_congr_left fun i _ => ?_
      simp only [Function.comp]
      rw [jsSubstring_eq_drop_take content _ _
        (Nat.mul_le_mul_right _ (Nat.le_succ i))]
      congr 1
      rw [Nat.succ_mul]
      omega
    rw [hmap, flatten_range_chunks]
    refine List.take_of_length_le ?_
    have h := numChunks_mul_ge content
    rw [Nat.mul_comm] at h
    exact h

/-! ## Jump-to-highlight page arithmetic (document viewer, handleJumpToAnnotation) -/

/-- The target page computed in `handleJumpToAnnotation`:
`Math.floor(globalStartOffset / DEFAULT_CHUNK_SIZE) + 1`. -/
def targetPage (globalStartOffset : Nat) : Nat :=
  globalStartOffset / DEFAULT_CHUNK_SIZE + 1

/-- The page-local offset computed in `handleJumpToAnnotation` and in the
page-content effect of the viewer: `globalStartOffset % DEFAULT_CHUNK_SIZE`. -/
def localOffsetForScroll (globalStartOffset : Nat) : Nat :=
  globalStartOffset % DEFAULT_CHUNK_SIZE

/-- C4: for every global character offset `g` inside the stored content, the
page `floor(g / 1048576) + 1` targeted by the viewer is a valid 1-based page
of the server chunking, the chunk stored under that page number is the one
at index `targetPage g - 1`, its character at local offset `g mod 1048576`
is exactly the character of the content at global offset `g`, and among all
valid pages it is exactly the one whose chunk range covers offset `g`. -/
theorem jump_targets_owning_chunk (id : Nat) (content : List Char) (g : Nat)
    (hg : g < content.length) :
    1 ≤ targetPage g ∧ targetPage g ≤ numChunks content
    ∧ ((updateDocumentContentChunks id content)[targetPage g - 1]?).map
        (fun c => c.pageNumber) = some (targetPage g)
    ∧ ((updateDocumentContentChunks id content)[targetPage g - 1]?).bind
        (fun c => c.content[localOffsetForScroll g]?) = content[g]?
    ∧ (∀ p, 1 ≤ p → p ≤ numChunks content →
        ((p - 1) * DEFAULT_CHUNK_SIZE ≤ g ∧ g < p * DEFAULT_CHUNK_SIZE
          ↔ p = targetPage g)) := by
  have hpage : targetPage g ≤ numChunks content := by
    unfold targetPage numChunks DEFAULT_CHUNK_SIZE
    omega
  have hidx : targetPage g - 1 = g / DEFAULT_CHUNK_SIZE := by
    unfold targetPage
    exact Nat.add_sub_cancel _ _
  have hlt : g / DEFAULT_CHUNK_SIZE < numChunks content := by
    unfold targetPage at hpage
    exact Nat.lt_of_succ_le hpage
  have hget := updateDocumentContentChunks_getElem id content
    (g / DEFAULT_CHUNK_SIZE) hlt
  refine ⟨Nat.le_add_left 1 _, hpage, ?_, ?_, ?_⟩
  · rw [hidx, hget]
    rfl
  · rw [hidx, hget]
    simp only [Option.some_bind, localOffsetForScroll]
    rw [List.getElem?_take, if_pos (Nat.mod_lt g (by norm_num [DEFAULT_CHUNK_SIZE]))]
    rw [List.getElem?_drop]
    congr 1
    rw [Nat.add_comm]
    exact Nat.mod_add_div' g DEFAULT_CHUNK_SIZE
  · intro p hp1 hp2
    unfold targetPage DEFAULT_CHUNK_SIZE
    unfold numChunks DEFAULT_CHUNK_SIZE at hp2
    constructor
    · intro hcov
      omega
    · intro hpq
      subst hpq
      omega

/-- Witness for C4 at a concrete input: document 3 with content a, b, c and
global offset 1. -/
theorem jump_targets_owning_chunk_witness :
    1 ≤ targetPage 1 ∧ targetPage 1 ≤ numChunks ['a', 'b', 'c']
    ∧ ((updateDocumentContentChunks 3 ['a', 'b', 'c'])[targetPage 1 - 1]?).map
        (fun c => c.pageNumber) = some (targetPage 1)
    ∧ ((updateDocumentContentChunks 3 ['a', 'b', 'c'])[targetPage 1 - 1]?).bind
        (fun c => c.content[localOffsetForScroll 1]?) = ['a', 'b', 'c'][1]?
    ∧ (∀ p, 1 ≤ p → p ≤ numChunks ['a', 'b', 'c'] →
        ((p - 1) * DEFAULT_CHUNK_SIZE ≤ 1 ∧ 1 < p * DEFAULT_CHUNK_SIZE
          ↔ p = targetPage 1)) :=
  jump_targets_owning_chunk 3 ['a', 'b', 'c'] 1 (by norm_num)

/-! ## Text selection offsets (client/src/lib/text-selection.ts) -/

/-- The characters removed by JS `String.prototype.trim`: the ECMAScript
WhiteSpace and LineTerminator code points. -/
def isJsWhitespace (c : Char) : Bool :=
  decide ((9 ≤ c.toNat ∧ c.toNat ≤ 13) ∨ c.toNat = 32 ∨ c.toNat = 160
    ∨ c.toNat = 0x1680 ∨ (0x2000 ≤ c.toNat ∧ c.toNat ≤ 0x200A)
    ∨ c.toNat = 0x2028 ∨ c.toNat = 0x2029 ∨ c.toNat = 0x202F
    ∨ c.toNat = 0x205F ∨ c.toNat = 0x3000 ∨ c.toNat = 0xFEFF)

/-- JS `String.prototype.trim` on a list of characters: leading and trailing
whitespace removed. -/
def jsTrim (s : List Char) : List Char :=
  ((s.dropWhile isJsWhitespace).reverse.dropWhile isJsWhitespace).reverse

/-- Model of the mouseup handler installed by `setupTextSelection`. The user
selection covers the half-open range from `selStart` to `selEnd` of the
container text content (a DOM Range never has its start after its end). As
the handler computes them, `selectedText` is the selection string trimmed,
`startOffset` is the length of the text before the selection start
(`beforeRange.toString().length`), and `endOffset` is
`startOffset + selectedText.length`. The result is the triple handed to the
`onTextSelection` callback, or none when the handler returns early because
the trimmed selection is empty. -/
def selectionCallbackArgs (textContent : List Char) (selStart selEnd : Nat) :
    Option (List Char × Nat × Nat) :=
  let selectedText := jsTrim (jsSubstring textContent selStart selEnd)
  if selectedText.length = 0 then none
  else some (selectedText, selStart, selStart + selectedText.length)

/-- C3 counterexample: in the container text a, b, space, c, d, selecting
the final three characters (the space, c and d) reports the text c, d with
offsets 2 and 4, but the text content from offset 2 to 4 is the space
followed by c, not c, d. -/
theorem selection_offsets_counterexample :
    selectionCallbackArgs ['a', 'b', ' ', 'c', 'd'] 2 5
      = some (['c', 'd'], 2, 4)
    ∧ jsSubstring ['a', 'b', ' ', 'c', 'd'] 2 4 ≠ ['c', 'd'] := by
  constructor
  · rfl
  · decide

theorem jsTrim_append_of_dropWhile_eq (l : List Char)
    (h : l.dropWhile isJsWhitespace = l) :
    jsTrim l ++ (l.reverse.takeWhile isJsWhitespace).reverse = l := by
  unfold jsTrim
  rw [h, ← List.reverse_append, List.takeWhile_append_dropWhile, List.reverse_reverse]

/-- C3 amended: whenever the raw selected range carries no leading
whitespace, the offsets handed to the annotation callback are correct:
the container text content from `startOffset` to `endOffset` is exactly the
reported text, and `endOffset` is `startOffset` plus its length. (The
original claim fails when the selection starts with whitespace, since the
reported text is trimmed while `startOffset` still points at the raw
selection start.) -/
theorem selection_offsets_correct (textContent : List Char)
    (selStart selEnd : Nat) (hse : selStart ≤ selEnd)
    (hnolead : (jsSubstring textContent selStart selEnd).dropWhile isJsWhitespace
      = jsSubstring textContent selStart selEnd)
    (text : List Char) (s e : Nat)
    (hcall : selectionCallbackArgs textContent selStart selEnd = some (text, s, e)) :
    jsSubstring textContent s e = text ∧ e = s + text.length := by
  simp only [selectionCallbackArgs] at hcall
  by_cases hz : (jsTrim (jsSubstring textContent selStart selEnd)).length = 0
  · rw [if_pos hz] at hcall
    exact absurd hcall (by simp)
  · rw [if_neg hz] at hcall
    simp only [Option.some.injEq, Prod.mk.injEq] at hcall
    obtain ⟨rfl, rfl, rfl⟩ := hcall
    refine ⟨?_, rfl⟩
    have happ := jsTrim_append_of_dropWhile_eq _ hnolead
    have hraw : jsSubstring textContent selStart selEnd
        = (textContent.drop selStart).take (selEnd - selStart) :=
      jsSubstring_eq_drop_take textContent selStart selEnd hse
    have hkb : (jsTrim (jsSubstring textContent selStart selEnd)).length
        ≤ selEnd - selStart := by
      have h1 : (jsTrim (jsSubstring textContent selStart selEnd)).length
          ≤ (jsSubstring textContent selStart selEnd).length := by
        conv_rhs => rw [← happ]
        simp
      have h2 : (jsSubstring textContent selStart selEnd).length
          ≤ selEnd - selStart := by
        rw [hraw]
        simp only [List.length_take, List.length_drop]
        exact Nat.min_le_left _ _
      omega
    rw [jsSubstring_eq_drop_take textContent selStart _ (Nat.le_add_right _ _)]
    have hcan : selStart + (jsTrim (jsSubstring textContent selStart selEnd)).length
        - selStart = (jsTrim (jsSubstring textContent selStart selEnd)).length := by
      omega
    rw [hcan]
    calc (textContent.drop selStart).take
          (jsTrim (jsSubstring textContent selStart selEnd)).length
        = ((textContent.drop selStart).take (selEnd - selStart)).take
            (jsTrim (jsSubstring textContent selStart selEnd)).length := by
          rw [List.take_take, Nat.min_eq_left hkb]
      _ = (jsSubstring textContent selStart selEnd).take
            (jsTrim (jsSubstring textContent selStart selEnd)).length := by
          rw [← hraw]
      _ = jsTrim (jsSubstring textContent selStart selEnd) := by
          have htl := List.take_left
            (jsTrim (jsSubstring textContent selStart selEnd))
            (((jsSubstring textContent selStart selEnd).reverse.takeWhile
              isJsWhitespace).reverse)
          rw [happ] at htl
          exact htl

/-- Witness for C3 amended at a concrete input: container text a, b with the
whole text selected. -/
theorem selection_offsets_correct_witness :
    jsSubstring ['a', 'b'] 0 2 = ['a', 'b'] ∧ 2 = 0 + (['a', 'b'] : List Char).length :=
  selection_offsets_correct ['a', 'b'] 0 2 (by decide) (by decide)
    ['a', 'b'] 0 2 (by decide)

/-! ## Rows of the persistent schema (shared/schema.ts) -/

/-- A row of the companies table. -/
structure Company where
  id : Nat
  cik : List Char
  name : List Char
  ticker : Option (List Char)
  createdAt : Nat
  deriving DecidableEq, Repr

/-- A row of the documents table; timestamps are modelled as naturals. -/
structure DocumentRow where
  id : Nat
  companyId : Nat
  accessionNumber : List Char
  formType : List Char
  filingDate : List Char
  reportDate : Option (List Char)
  documentUrl : List Char
  title : List Char
  content : Option (List Char)
  totalPages : Nat
  lastAccessedAt : Nat
  createdAt : Nat
  deriving DecidableEq, Repr

/-- A row of the annotations table. -/
structure AnnotationRow where
  id : Nat
  documentId : Nat
  type : List Char
  selectedText : List Char
  note : Option (List Char)
  color : List Char
  pageNumber : Nat
  startOffset : Nat
  endOffset : Nat
  createdAt : Nat
  updatedAt : Nat
  deriving DecidableEq, Repr

/-- Modelled from the spec: the document_chunks table. The storage layer
imports `documentChunks`, `DocumentChunk` and `InsertDocumentChunk` from the
shared schema and reads and writes that table, but its pgTable declaration
is not among the provided source files; following the spec, a chunk is a
stored ~1MB slice of a document text content used for pagination, keyed by
document id and 1-based page number. -/
def documentChunksTableName : String := "document_chunks"

/-- The set of tables of the persistent schema: the pgTable declarations of
shared/schema.ts (companies, documents, annotations) together with the
document_chunks table the storage layer operates on. -/
def schemaTables : List String :=
  ["companies", "documents", documentChunksTableName, "annotations"]

/-- The operations of the storage interface IStorage, implemented by
DatabaseStorage in server/storage.ts (the three operations on annotations
rows carry a Row suffix here). -/
inductive StorageOp where
  | getCompanyByCik
  | createCompany
  | searchCompaniesOp
  | getDocument
  | getDocumentByAccession
  | createDocument
  | updateDocumentContent
  | updateDocumentLastAccessed
  | getRecentDocuments
  | getDocumentChunk
  | getCompanyDocuments
  | getDocumentAnnotations
  | createAnnotationRow
  | updateAnnotationRow
  | deleteAnnotationRow
  | searchAnnotationsOp
  deriving DecidableEq, Repr

/-- The tables each storage operation reads or writes, read off the drizzle
calls (select from, insert into, update, delete, innerJoin) in
DatabaseStorage. -/
def storageOpTables : StorageOp → List String
  | .getCompanyByCik => ["companies"]
  | .createCompany => ["companies"]
  | .searchCompaniesOp => ["companies"]
  | .getDocument => ["documents"]
  | .getDocumentByAccession => ["documents"]
  | .createDocument => ["documents"]
  | .updateDocumentContent => [documentChunksTableName, "documents"]
  | .updateDocumentLastAccessed => ["documents"]
  | .getRecentDocuments => ["documents", "companies"]
  | .getDocumentChunk => [documentChunksTableName]
  | .getCompanyDocuments => ["documents"]
  | .getDocumentAnnotations => ["annotations"]
  | .createAnnotationRow => ["annotations"]
  | .updateAnnotationRow => ["annotations"]
  | .deleteAnnotationRow => ["annotations"]
  | .searchAnnotationsOp => ["annotations", "documents", "companies"]

/-- C6 counterexample: the schema defines four tables, not three. -/
theorem schema_tables_counterexample :
    schemaTables.dedup.length = 4 ∧ schemaTables.dedup.length ≠ 3 := by
  constructor <;> decide

/-- C6 amended: the persistent schema defines precisely the four tables
companies, documents, document_chunks and annotations, and every storage
operation reads or writes only tables of this set. -/
theorem storage_tables_exactly_schema :
    schemaTables = ["companies", "documents", "document_chunks", "annotations"]
    ∧ (∀ op : StorageOp, ∀ t ∈ storageOpTables op, t ∈ schemaTables) := by
  refine ⟨rfl, ?_⟩
  intro op t ht
  cases op <;> simp_all [storageOpTables, schemaTables, documentChunksTableName] <;>
    tauto

/-! ## A stable sort, for the SQL order-by and the JS comparator sort -/

/-- Insert an element after every existing element that strictly precedes
it: the insertion step of a stable sort. `prec x y` holds when `x` must
come strictly before `y`. -/
def insertPrec (prec : α → α → Bool) (a : α) : List α → List α
  | [] => [a]
  | b :: rest => if prec b a then b :: insertPrec prec a rest else a :: b :: rest

/-- A stable sort by the strict-precedence test `prec`: ties and
incomparable elements keep their original order, as JS
`Array.prototype.sort` (stable per ES2019) and the SQL order-by do for the
orderings modelled here. -/
def sortByPrec (prec : α → α → Bool) : List α → List α
  | [] => []
  | a :: rest => insertPrec prec a (sortByPrec prec rest)

theorem insertPrec_perm (prec : α → α → Bool) (a : α) (l : List α) :
    (insertPrec prec a l).Perm (a :: l) := by
  induction l with
  | nil => exact List.Perm.refl _
  | cons b rest ih =>
    unfold insertPrec
    by_cases h : prec b a = true
    · rw [if_pos h]
      exact (ih.cons b).trans (List.Perm.swap a b rest)
    · rw [if_neg h]

theorem sortByPrec_perm (prec : α → α → Bool) (l : List α) :
    (sortByPrec prec l).Perm l := by
  induction l with
  | nil => exact List.Perm.refl _
  | cons a rest ih =>
    exact (insertPrec_perm prec a (sortByPrec prec rest)).trans (ih.cons a)

theorem length_sortByPrec (prec : α → α → Bool) (l : List α) :
    (sortByPrec prec l).length = l.length :=
  (sortByPrec_perm prec l).length_eq

theorem mem_sortByPrec (prec : α → α → Bool) (l : List α) (x : α) :
    x ∈ sortByPrec prec l ↔ x ∈ l :=
  (sortByPrec_perm prec l).mem_iff

/-- ORDER BY a natural key DESC: a strictly greater key comes first. -/
def sortByKeyDesc (key : α → Nat) (l : List α) : List α :=
  sortByPrec (fun x y => decide (key y < key x)) l

theorem pairwise_insertPrec_keyDesc (key : α → Nat) (a : α) (l : List α)
    (hl : l.Pairwise fun x y => key y ≤ key x) :
    (insertPrec (fun x y => decide (key y < key x)) a l).Pairwise
      fun x y => key y ≤ key x := by
  induction l with
  | nil => simp [insertPrec]
  | cons b rest ih =>
    unfold insertPrec
    rcases List.pairwise_cons.mp hl with ⟨hb, hrest⟩
    by_cases h : decide (key a < key b) = true
    · rw [if_pos h]
      refine List.pairwise_cons.mpr ⟨?_, ih hrest⟩
      intro x hx
      rcases List.mem_cons.mp ((insertPrec_perm _ a rest).mem_iff.mp hx) with hxa | hxr
      · subst hxa
        exact Nat.le_of_lt (of_decide_eq_true h)
      · exact hb x hxr
    · rw [if_neg h]
      have hba : key b ≤ key a := by
        have := of_decide_eq_false (Bool.of_not_eq_true h)
        omega
      refine List.pairwise_cons.mpr ⟨?_, hl⟩
      intro x hx
      rcases List.mem_cons.mp hx with hxb | hxr
      · subst hxb
        exact hba
      · exact Nat.le_trans (hb x hxr) hba

theorem pairwise_sortByKeyDesc (key : α → Nat) (l : List α) :
    (sortByKeyDesc key l).Pairwise fun x y => key y ≤ key x := by
  induction l with
  | nil => exact List.Pairwise.nil
  | cons a rest ih => exact pairwise_insertPrec_keyDesc key a _ ih

/-! ## Search (DatabaseStorage.searchCompanies / searchAnnotations,
GET /api/companies/search) -/

/-- Containment of `needle` in `hay`: the relational reading of the SQL
filter `like(column, %needle%)` (Postgres LIKE is case-sensitive) and of
JS `String.prototype.includes`. -/
def likeContains (hay needle : List Char) : Bool :=
  match hay with
  | [] => needle.isEmpty
  | _ :: rest => needle.isPrefixOf hay || likeContains rest needle

/-- DatabaseStorage.searchCompanies: the companies rows whose name, ticker
or cik contains the query (a NULL ticker matches nothing, as SQL LIKE on
NULL is not true), limited to 10 rows. -/
def searchCompanies (table : List Company) (q : List Char) : List Company :=
  (table.filter fun c =>
    likeContains c.name q
      || (match c.ticker with
          | some t => likeContains t q
          | none => false)
      || likeContains c.cik q).take 10

/-- An entry of the SEC company_tickers.json file as the fallback branch of
GET /api/companies/search reads it: cik_str a number, title and ticker
strings. -/
structure TickerEntry where
  cik_str : Nat
  title : List Char
  ticker : List Char
  deriving DecidableEq, Repr

/-- A result object pushed by the fallback branch:
cik padded to 10 digits with zeros, name and ticker as in the entry. -/
structure TickerSearchResult where
  cik : List Char
  name : List Char
  ticker : List Char
  deriving DecidableEq, Repr

/-- JS `String.prototype.toLowerCase`, per character. -/
def jsToLower (s : List Char) : List Char := s.map Char.toLower

/-- JS `String.prototype.padStart` with a single pad character. -/
def padStart (s : List Char) (n : Nat) (c : Char) : List Char :=
  List.replicate (n - s.length) c ++ s

/-- The match test of the fallback loop: the lowercased title or ticker, or
the cik digit string, contains the lowercased query. -/
def tickerEntryMatches (q : List Char) (e : TickerEntry) : Bool :=
  likeContains (jsToLower e.title) (jsToLower q)
    || likeContains (jsToLower e.ticker) (jsToLower q)
    || likeContains (Nat.repr e.cik_str).toList (jsToLower q)

/-- The result object built for a matching entry. -/
def tickerResultOf (e : TickerEntry) : TickerSearchResult :=
  { cik := padStart (Nat.repr e.cik_str).toList 10 '0'
    name := e.title
    ticker := e.ticker }

/-- The collection loop of the fallback branch: for each matching entry a
result is pushed, and the loop breaks once the results reach length 10. -/
def collectTickerMatches (q : List Char) :
    List TickerEntry → List TickerSearchResult → List TickerSearchResult
  | [], acc => acc
  | e :: rest, acc =>
      if tickerEntryMatches q e then
        let acc2 := acc ++ [tickerResultOf e]
        if 10 ≤ acc2.length then acc2 else collectTickerMatches q rest acc2
      else collectTickerMatches q rest acc

/-- The drizzle query of DatabaseStorage.searchAnnotations: annotations
inner-joined with their document and that document company, filtered by
containment of the query in selectedText or note, ordered by createdAt
descending, limited to 50; each row keeps the annotations row plus the
document title and the company name. -/
def searchAnnotations (anns : List AnnotationRow) (docs : List DocumentRow)
    (comps : List Company) (q : List Char) :
    List (AnnotationRow × List Char × List Char) :=
  (sortByKeyDesc (fun r => r.1.createdAt)
    (((anns.flatMap fun a =>
        (docs.filter fun d => d.id == a.documentId).flatMap fun d =>
          (comps.filter fun c => c.id == d.companyId).map fun c =>
            (a, d.title, c.name))).filter fun r =>
      likeContains r.1.selectedText q
        || (match r.1.note with
            | some n => likeContains n q
            | none => false))).take 50

/-! ## JSON responses and the API routes (server/routes.ts) -/

/-- A JSON value, as the route handlers serialize their responses. -/
inductive Json where
  | null
  | bool (b : Bool)
  | num (n : Int)
  | str (s : String)
  | arr (xs : List Json)
  | obj (fields : List (String × Json))

/-- The body of an Express response: the routes only ever call res.json,
but Express can also send text, files or nothing. -/
inductive ResBody where
  | json (v : Json)
  | text (s : String)
  | empty

/-- Whether a response body is JSON. -/
def ResBody.isJson : ResBody → Bool
  | .json _ => true
  | _ => false

/-- An Express response: HTTP status and body (res.json defaults the status
to 200). -/
structure Response where
  status : Nat
  body : ResBody

/-- The outcome of an awaited fetch: the response ok flag, HTTP status and
parsed payload, or a thrown network or parse error. -/
inductive FetchOutcome (α : Type) where
  | response (ok : Bool) (status : Nat) (payload : α)
  | thrown

/-- Serialization of an optional string column (NULL becomes JSON null). -/
def optStrJson : Option (List Char) → Json
  | some s => .str (String.mk s)
  | none => .null

/-- res.json on a companies row. -/
def companyJson (c : Company) : Json :=
  .obj [("id", .num c.id), ("cik", .str (String.mk c.cik)),
    ("name", .str (String.mk c.name)), ("ticker", optStrJson c.ticker),
    ("createdAt", .num c.createdAt)]

/-- res.json on a fallback search result object. -/
def tickerResultJson (r : TickerSearchResult) : Json :=
  .obj [("cik", .str (String.mk r.cik)), ("name", .str (String.mk r.name)),
    ("ticker", .str (String.mk r.ticker))]

/-- res.json on a documents row. -/
def documentRowJson (d : DocumentRow) : Json :=
  .obj [("id", .num d.id), ("companyId", .num d.companyId),
    ("accessionNumber", .str (String.mk d.accessionNumber)),
    ("formType", .str (String.mk d.formType)),
    ("filingDate", .str (String.mk d.filingDate)),
    ("reportDate", optStrJson d.reportDate),
    ("documentUrl", .str (String.mk d.documentUrl)),
    ("title", .str (String.mk d.title)), ("content", optStrJson d.content),
    ("totalPages", .num d.totalPages), ("lastAccessedAt", .num d.lastAccessedAt),
    ("createdAt", .num d.createdAt)]

/-- res.json on an annotations row. -/
def annotationRowJson (a : AnnotationRow) : Json :=
  .obj [("id", .num a.id), ("documentId", .num a.documentId),
    ("type", .str (String.mk a.type)),
    ("selectedText", .str (String.mk a.selectedText)),
    ("note", optStrJson a.note), ("color", .str (String.mk a.color)),
    ("pageNumber", .num a.pageNumber), ("startOffset", .num a.startOffset),
    ("endOffset", .num a.endOffset), ("createdAt", .num a.createdAt),
    ("updatedAt", .num a.updatedAt)]

/-- res.json on a searchAnnotations row (annotation columns plus
documentTitle and companyName). -/
def annotationSearchRowJson (r : AnnotationRow × List Char × List Char) : Json :=
  match r with
  | (a, title, cname) =>
    .obj [("id", .num a.id), ("documentId", .num a.documentId),
      ("type", .str (String.mk a.type)),
      ("selectedText", .str (String.mk a.selectedText)),
      ("note", optStrJson a.note), ("color", .str (String.mk a.color)),
      ("pageNumber", .num a.pageNumber), ("startOffset", .num a.startOffset),
      ("endOffset", .num a.endOffset), ("createdAt", .num a.createdAt),
      ("updatedAt", .num a.updatedAt),
      ("documentTitle", .str (String.mk title)),
      ("companyName", .str (String.mk cname))]

/-- res.json on a getRecentDocuments row (document columns plus
companyName). -/
def recentDocumentJson (r : DocumentRow × List Char) : Json :=
  match r with
  | (d, cname) =>
    .obj [("id", .num d.id), ("companyId", .num d.companyId),
      ("accessionNumber", .str (String.mk d.accessionNumber)),
      ("formType", .str (String.mk d.formType)),
      ("filingDate", .str (String.mk d.filingDate)),
      ("reportDate", optStrJson d.reportDate),
      ("documentUrl", .str (String.mk d.documentUrl)),
      ("title", .str (String.mk d.title)), ("content", optStrJson d.content),
      ("totalPages", .num d.totalPages),
      ("lastAccessedAt", .num d.lastAccessedAt), ("createdAt", .num d.createdAt),
      ("companyName", .str (String.mk cname))]

/-- GET /api/companies/search. The inputs abstract the effects the handler
awaits: the query parameter (none when absent or not a string), the read of
the companies table (error for a storage throw), and the fetch of the SEC
company_tickers.json file. The handler searches the local table first and
returns those rows when nonempty; only otherwise does it fetch the ticker
file, collecting at most 10 matches and answering with an empty array when
that fetch throws or is not ok. The boolean of the result records whether
the SEC fetch was performed. -/
def companiesSearchRoute (q : Option (List Char))
    (table : Except Unit (List Company))
    (secFetch : FetchOutcome (List TickerEntry)) : Response × Bool :=
  match q with
  | none =>
    (⟨400, .json (.obj [("error", .str "Query parameter 'q' is required")])⟩, false)
  | some qs =>
    match table with
    | .error _ =>
      (⟨500, .json (.obj [("error", .str "Failed to search companies")])⟩, false)
    | .ok rows =>
      let localCompanies := searchCompanies rows qs
      if 0 < localCompanies.length then
        (⟨200, .json (.arr (localCompanies.map companyJson))⟩, false)
      else
        match secFetch with
        | .thrown => (⟨200, .json (.arr [])⟩, true)
        | .response ok _ entries =>
          if ok then
            (⟨200, .json (.arr ((collectTickerMatches qs entries []).map
              tickerResultJson))⟩, true)
          else
            (⟨200, .json (.arr [])⟩, true)

/-! ## Documents: lookup, last-accessed update, recent list -/

/-- DatabaseStorage.getDocument: the first documents row whose id matches
(drizzle select().where(eq) destructured to its first row). -/
def getDocument (docs : List DocumentRow) (id : Nat) : Option DocumentRow :=
  (docs.filter fun d => d.id == id).head?

/-- DatabaseStorage.updateDocumentLastAccessed: set lastAccessedAt to now()
on the documents rows whose id matches, touching nothing else. -/
def updateDocumentLastAccessed (docs : List DocumentRow) (id now : Nat) :
    List DocumentRow :=
  docs.map fun d => if d.id = id then { d with lastAccessedAt := now } else d

/-- The effect of GET /api/documents/:id on the documents table: when the
document is found the handler awaits updateDocumentLastAccessed before
answering; otherwise (404) the table is left unchanged. -/
def documentByIdRouteDb (docs : List DocumentRow) (id now : Nat) :
    List DocumentRow :=
  match getDocument docs id with
  | none => docs
  | some _ => updateDocumentLastAccessed docs id now

/-- The inner join of documents with companies as selected by
DatabaseStorage.getRecentDocuments: every document column plus the company
name. -/
def recentJoinRows (docs : List DocumentRow) (comps : List Company) :
    List (DocumentRow × List Char) :=
  docs.flatMap fun d =>
    (comps.filter fun c => c.id == d.companyId).map fun c => (d, c.name)

/-- DatabaseStorage.getRecentDocuments: the joined rows ordered by
lastAccessedAt descending, limited. -/
def getRecentDocuments (docs : List DocumentRow) (comps : List Company)
    (limit : Nat) : List (DocumentRow × List Char) :=
  (sortByKeyDesc (fun r => r.1.lastAccessedAt) (recentJoinRows docs comps)).take
    limit

/-! ## The API routes (server/routes.ts) -/

/-- One call of an API route of registerRoutes, with the effects the
handler awaits abstracted as inputs: parse and storage outcomes are Except
values (error for a throw caught by the handler's catch), optional request
parameters are Options, and upstream SEC fetches are FetchOutcome values.
The three annotation-row routes carry a Route suffix. -/
inductive RouteCall where
  | companiesSearch (q : Option (List Char)) (table : Except Unit (List Company))
      (secFetch : FetchOutcome (List TickerEntry))
  | companyByCik (outcome : Except Unit (Option Company))
  | createCompanyRoute (created : Except Unit Company)
  | recentDocuments (outcome : Except Unit (List (DocumentRow × List Char)))
  | documentById (outcome : Except Unit (Option DocumentRow))
  | companyDocuments (outcome : Except Unit (Option (List DocumentRow)))
  | createDocumentRoute (created : Except Unit DocumentRow)
  | patchDocumentContent (content : Option (List Char))
      (update : Except Unit Unit)
  | documentAnnotationList (outcome : Except Unit (List AnnotationRow))
  | createAnnotationRoute (created : Except Unit AnnotationRow)
  | updateAnnotationRoute (outcome : Except Unit AnnotationRow)
  | deleteAnnotationRoute (outcome : Except Unit Unit)
  | annotationsSearch (q : Option (List Char))
      (outcome : Except Unit (List (AnnotationRow × List Char × List Char)))
  | secCompanyFilings (upstream : FetchOutcome Json)
  | secDocument (url : Option (List Char)) (upstream : FetchOutcome (List Char))

/-- The response of each route of registerRoutes, following the handlers in
server/routes.ts branch by branch. -/
def handleRoute : RouteCall → Response
  | .companiesSearch q table secFetch => (companiesSearchRoute q table secFetch).1
  | .companyByCik outcome =>
    match outcome with
    | .error _ => ⟨500, .json (.obj [("error", .str "Failed to fetch company")])⟩
    | .ok none => ⟨404, .json (.obj [("error", .str "Company not found")])⟩
    | .ok (some c) => ⟨200, .json (companyJson c)⟩
  | .createCompanyRoute created =>
    match created with
    | .error _ => ⟨400, .json (.obj [("error", .str "Invalid company data")])⟩
    | .ok c => ⟨201, .json (companyJson c)⟩
  | .recentDocuments outcome =>
    match outcome with
    | .error _ =>
      ⟨500, .json (.obj [("error", .str "Failed to fetch recent documents")])⟩
    | .ok rows => ⟨200, .json (.arr (rows.map recentDocumentJson))⟩
  | .documentById outcome =>
    match outcome with
    | .error _ => ⟨500, .json (.obj [("error", .str "Failed to fetch document")])⟩
    | .ok none => ⟨404, .json (.obj [("error", .str "Document not found")])⟩
    | .ok (some d) => ⟨200, .json (documentRowJson d)⟩
  | .companyDocuments outcome =>
    match outcome with
    | .error _ =>
      ⟨500, .json (.obj [("error", .str "Failed to fetch company documents")])⟩
    | .ok none => ⟨404, .json (.obj [("error", .str "Company not found")])⟩
    | .ok (some ds) => ⟨200, .json (.arr (ds.map documentRowJson))⟩
  | .createDocumentRoute created =>
    match created with
    | .error _ => ⟨400, .json (.obj [("error", .str "Invalid document data")])⟩
    | .ok d => ⟨201, .json (documentRowJson d)⟩
  | .patchDocumentContent content update =>
    match content with
    | none => ⟨400, .json (.obj [("error", .str "Content is required")])⟩
    | some _ =>
      match update with
      | .error _ =>
        ⟨500, .json (.obj [("error", .str "Failed to update document content")])⟩
      | .ok _ => ⟨200, .json (.obj [("success", .bool true)])⟩
  | .documentAnnotationList outcome =>
    match outcome with
    | .error _ =>
      ⟨500, .json (.obj [("error", .str "Failed to fetch annotations")])⟩
    | .ok rows => ⟨200, .json (.arr (rows.map annotationRowJson))⟩
  | .createAnnotationRoute created =>
    match created with
    | .error _ => ⟨400, .json (.obj [("error", .str "Invalid annotation data")])⟩
    | .ok a => ⟨201, .json (annotationRowJson a)⟩
  | .updateAnnotationRoute outcome =>
    match outcome with
    | .error _ =>
      ⟨500, .json (.obj [("error", .str "Failed to update annotation")])⟩
    | .ok a => ⟨200, .json (annotationRowJson a)⟩
  | .deleteAnnotationRoute outcome =>
    match outcome with
    | .error _ =>
      ⟨500, .json (.obj [("error", .str "Failed to delete annotation")])⟩
    | .ok _ => ⟨200, .json (.obj [("success", .bool true)])⟩
  | .annotationsSearch q outcome =>
    match q with
    | none =>
      ⟨400, .json (.obj [("error", .str "Query parameter 'q' is required")])⟩
    | some _ =>
      match outcome with
      | .error _ =>
        ⟨500, .json (.obj [("error", .str "Failed to search annotations")])⟩
      | .ok rows => ⟨200, .json (.arr (rows.map annotationSearchRowJson))⟩
  | .secCompanyFilings upstream =>
    match upstream with
    | .thrown => ⟨500, .json (.obj [("error", .str "Failed to fetch SEC filings")])⟩
    | .response ok status payload =>
      if ok then ⟨200, .json payload⟩
      else ⟨status, .json (.obj [("error", .str "Failed to fetch SEC data")])⟩
  | .secDocument url upstream =>
    match url with
    | none => ⟨400, .json (.obj [("error", .str "URL parameter is required")])⟩
    | some _ =>
      match upstream with
      | .thrown =>
        ⟨500, .json (.obj [("error", .str "Failed to fetch SEC document")])⟩
      | .response ok status content =>
        if ok then ⟨200, .json (.obj [("content", .str (String.mk content))])⟩
        else ⟨status, .json (.obj [("error", .str "Failed to fetch document")])⟩

/-! ## Claims C5, C7, C9, C10 -/

/-- C5 counterexample: with a companies row matching the query in the local
database, GET /api/companies/search answers with that locally persisted row
and never contacts SEC (the boolean of the result records that the SEC
ticker file was not fetched), even though a working SEC upstream is
available. -/
theorem companies_search_no_forward_counterexample :
    companiesSearchRoute (some ['A', 'p', 'p'])
        (.ok [⟨1, ['3', '2', '0'], ['A', 'p', 'p', 'l', 'e'],
          some ['A', 'A', 'P', 'L'], 0⟩])
        (.response true 200 [])
      = (⟨200, .json (.arr [companyJson ⟨1, ['3', '2', '0'],
          ['A', 'p', 'p', 'l', 'e'], some ['A', 'A', 'P', 'L'], 0⟩])⟩,
        false) := by
  rfl

/-- C5 amended: company search serves matching rows from the local
companies table whenever any exist, without contacting SEC; only when the
local search returns no rows does the route fetch the SEC ticker file, and
its results are then produced from the SEC reply (an empty array when that
fetch fails or is not ok). -/
theorem companies_search_local_first (qs : List Char) (rows : List Company)
    (secFetch : FetchOutcome (List TickerEntry)) :
    (0 < (searchCompanies rows qs).length →
      companiesSearchRoute (some qs) (.ok rows) secFetch
        = (⟨200, .json (.arr ((searchCompanies rows qs).map companyJson))⟩,
          false))
    ∧ ((searchCompanies rows qs).length = 0 →
      (companiesSearchRoute (some qs) (.ok rows) secFetch).2 = true
      ∧ (∀ st entries, secFetch = .response true st entries →
          (companiesSearchRoute (some qs) (.ok rows) secFetch).1
            = ⟨200, .json (.arr ((collectTickerMatches qs entries []).map
                tickerResultJson))⟩)
      ∧ (∀ st entries, secFetch = .response false st entries →
          (companiesSearchRoute (some qs) (.ok rows) secFetch).1
            = ⟨200, .json (.arr [])⟩)
      ∧ (secFetch = .thrown →
          (companiesSearchRoute (some qs) (.ok rows) secFetch).1
            = ⟨200, .json (.arr [])⟩)) := by
  constructor
  · intro h
    simp only [companiesSearchRoute, if_pos h]
  · intro h
    have hnot : ¬ 0 < (searchCompanies rows qs).length := by omega
    refine ⟨?_, ?_, ?_, ?_⟩
    · simp only [companiesSearchRoute, if_neg hnot]
      cases secFetch with
      | thrown => rfl
      | response ok st entries => cases ok <;> rfl
    · intro st entries hsec
      subst hsec
      simp only [companiesSearchRoute, if_neg hnot, if_pos]
    · intro st entries hsec
      subst hsec
      simp only [companiesSearchRoute, if_neg hnot]
      rfl
    · intro hsec
      subst hsec
      simp only [companiesSearchRoute, if_neg hnot]

/-- Witness for C5 amended at a concrete input: an empty local table and a
working SEC upstream with one matching entry. -/
theorem companies_search_local_first_witness :
    (0 < (searchCompanies [] ['A']).length →
      companiesSearchRoute (some ['A']) (.ok []) (.response true 200 [⟨7, ['A'], ['A']⟩])
        = (⟨200, .json (.arr ((searchCompanies [] ['A']).map companyJson))⟩, false))
    ∧ ((searchCompanies [] ['A']).length = 0 →
      (companiesSearchRoute (some ['A']) (.ok [])
          (.response true 200 [⟨7, ['A'], ['A']⟩])).2 = true
      ∧ (∀ st entries,
          (FetchOutcome.response true 200 [⟨7, ['A'], ['A']⟩]
            : FetchOutcome (List TickerEntry)) = .response true st entries →
          (companiesSearchRoute (some ['A']) (.ok [])
              (.response true 200 [⟨7, ['A'], ['A']⟩])).1
            = ⟨200, .json (.arr ((collectTickerMatches ['A'] entries []).map
                tickerResultJson))⟩)
      ∧ (∀ st entries,
          (FetchOutcome.response true 200 [⟨7, ['A'], ['A']⟩]
            : FetchOutcome (List TickerEntry)) = .response false st entries →
          (companiesSearchRoute (some ['A']) (.ok [])
              (.response true 200 [⟨7, ['A'], ['A']⟩])).1
            = ⟨200, .json (.arr [])⟩)
      ∧ ((FetchOutcome.response true 200 [⟨7, ['A'], ['A']⟩]
            : FetchOutcome (List TickerEntry)) = .thrown →
          (companiesSearchRoute (some ['A']) (.ok [])
              (.response true 200 [⟨7, ['A'], ['A']⟩])).1
            = ⟨200, .json (.arr [])⟩)) :=
  companies_search_local_first ['A'] [] (.response true 200 [⟨7, ['A'], ['A']⟩])

/-- C7: every API route responds with a JSON body on its success branch and
on every error branch, and each of the two SEC proxy routes, on a non-ok
upstream response, answers with the upstream HTTP status together with a
JSON error object. -/
theorem routes_json_and_sec_status_passthrough :
    (∀ call, (handleRoute call).body.isJson = true)
    ∧ (∀ st payload,
        handleRoute (.secCompanyFilings (.response false st payload))
          = ⟨st, .json (.obj [("error", .str "Failed to fetch SEC data")])⟩)
    ∧ (∀ url st content,
        handleRoute (.secDocument (some url) (.response false st content))
          = ⟨st, .json (.obj [("error", .str "Failed to fetch document")])⟩) := by
  refine ⟨?_, fun st payload => rfl, fun url st content => rfl⟩
  intro call
  cases call <;>
    (dsimp only [handleRoute, companiesSearchRoute]
     repeat' split) <;>
    rfl

/-- C9: fetching a document by id mutates stored state although it is a
read: when the document exists the route updates that row lastAccessedAt to
the current time and changes no other field and no other row (and leaves
the table unchanged when the document is missing); getRecentDocuments
returns at most limit join rows, ordered by lastAccessedAt descending, and
its first row carries the greatest lastAccessedAt of the whole join, so the
most recently viewed document is listed first. -/
theorem document_fetch_updates_recent_order :
    (∀ docs id now,
      (updateDocumentLastAccessed docs id now).length = docs.length)
    ∧ (∀ (docs : List DocumentRow) (id now k : Nat) (d : DocumentRow),
        docs[k]? = some d →
        (updateDocumentLastAccessed docs id now)[k]?
          = some (if d.id = id then { d with lastAccessedAt := now } else d))
    ∧ (∀ docs id now d, getDocument docs id = some d →
        documentByIdRouteDb docs id now = updateDocumentLastAccessed docs id now)
    ∧ (∀ docs id now, getDocument docs id = none →
        documentByIdRouteDb docs id now = docs)
    ∧ (∀ docs comps limit, (getRecentDocuments docs comps limit).length ≤ limit)
    ∧ (∀ docs comps limit,
        (getRecentDocuments docs comps limit).Pairwise
          fun x y => y.1.lastAccessedAt ≤ x.1.lastAccessedAt)
    ∧ (∀ docs comps limit h x,
        (getRecentDocuments docs comps limit).head? = some h →
        x ∈ recentJoinRows docs comps →
        x.1.lastAccessedAt ≤ h.1.lastAccessedAt) := by
  refine ⟨?_, ?_, ?_, ?_, ?_, ?_, ?_⟩
  · intro docs id now
    simp [updateDocumentLastAccessed]
  · intro docs id now k d hk
    simp [updateDocumentLastAccessed, List.getElem?_map, hk]
  · intro docs id now d hd
    unfold documentByIdRouteDb
    rw [hd]
  · intro docs id now hd
    unfold documentByIdRouteDb
    rw [hd]
  · intro docs comps limit
    unfold getRecentDocuments
    simp only [List.length_take]
    exact Nat.min_le_left _ _
  · intro docs comps limit
    exact (pairwise_sortByKeyDesc (fun r => r.1.lastAccessedAt)
      (recentJoinRows docs comps)).sublist (List.take_sublist _ _)
  · intro docs comps limit h x hh hx
    have hxmem : x ∈ sortByKeyDesc (fun r => r.1.lastAccessedAt)
        (recentJoinRows docs comps) :=
      (mem_sortByPrec _ _ x).mpr hx
    have hpw := pairwise_sortByKeyDesc (fun r => r.1.lastAccessedAt)
      (recentJoinRows docs comps)
    unfold getRecentDocuments at hh
    cases limit with
    | zero => simp at hh
    | succ m =>
      cases hsl : sortByKeyDesc (fun r => r.1.lastAccessedAt)
          (recentJoinRows docs comps) with
      | nil =>
        rw [hsl] at hxmem
        simp at hxmem
      | cons a t =>
        rw [hsl] at hh hxmem hpw
        simp only [List.take_succ_cons, List.head?_cons, Option.some.injEq] at hh
        subst hh
        rcases List.mem_cons.mp hxmem with rfl | hxt
        · exact Nat.le_refl _
        · exact (List.pairwise_cons.mp hpw).1 x hxt

theorem collectTickerMatches_length_le (q : List Char)
    (entries : List TickerEntry) :
    ∀ acc : List TickerSearchResult, acc.length < 10 →
      (collectTickerMatches q entries acc).length ≤ 10 := by
  induction entries with
  | nil =>
    intro acc h
    unfold collectTickerMatches
    omega
  | cons e rest ih =>
    intro acc h
    unfold collectTickerMatches
    by_cases hm : tickerEntryMatches q e = true
    · rw [if_pos hm]
      simp only [List.length_append, List.length_cons, List.length_nil]
      by_cases hlen : 10 ≤ acc.length + (0 + 1)
      · rw [if_pos hlen]
        simp only [List.length_append, List.length_cons, List.length_nil]
        omega
      · rw [if_neg hlen]
        refine ih _ ?_
        simp only [List.length_append, List.length_cons, List.length_nil]
        omega
    · rw [if_neg hm]
      exact ih acc h

/-- C10: search results are bounded on every path: the local company search
is limited to 10 rows, the SEC ticker-file fallback stops collecting after
10 matches, every JSON array answered by GET /api/companies/search has at
most 10 elements, and annotation search returns at most 50 rows. -/
theorem search_results_bounded :
    (∀ rows q, (searchCompanies rows q).length ≤ 10)
    ∧ (∀ q entries, (collectTickerMatches q entries []).length ≤ 10)
    ∧ (∀ q table secFetch xs,
        (companiesSearchRoute q table secFetch).1.body = .json (.arr xs) →
        xs.length ≤ 10)
    ∧ (∀ anns docs comps q,
        (searchAnnotations anns docs comps q).length ≤ 50) := by
  have hsc : ∀ rows q, (searchCompanies rows q).length ≤ 10 := by
    intro rows q
    unfold searchCompanies
    simp only [List.length_take]
    exact Nat.min_le_left _ _
  have hct : ∀ q entries, (collectTickerMatches q entries []).length ≤ 10 :=
    fun q entries => collectTickerMatches_length_le q entries [] (by simp)
  refine ⟨hsc, hct, ?_, ?_⟩
  · intro q table secFetch xs hbody
    cases q with
    | none => simp [companiesSearchRoute] at hbody
    | some qs =>
      cases table with
      | error e => simp [companiesSearchRoute] at hbody
      | ok rows =>
        by_cases hloc : 0 < (searchCompanies rows qs).length
        · simp only [companiesSearchRoute, if_pos hloc, ResBody.json.injEq,
            Json.arr.injEq] at hbody
          rw [← hbody]
          simpa using hsc rows qs
        · cases secFetch with
          | thrown =>
            simp only [companiesSearchRoute, if_neg hloc, ResBody.json.injEq,
              Json.arr.injEq] at hbody
            rw [← hbody]
            simp
          | response ok st entries =>
            cases ok with
            | true =>
              simp only [companiesSearchRoute, if_neg hloc, if_pos,
                ResBody.json.injEq, Json.arr.injEq] at hbody
              rw [← hbody]
              simpa using hct qs entries
            | false =>
              simp only [companiesSearchRoute, if_neg hloc, Bool.false_eq_true,
                if_false, ResBody.json.injEq, Json.arr.injEq] at hbody
              rw [← hbody]
              simp
  · intro anns docs comps q
    unfold searchAnnotations
    simp only [List.length_take]
    exact Nat.min_le_left _ _

/-! ## highlightText (client document viewer): single-pass DOM
re-highlighting -/

/-- Truthiness of the note column in the JS conditions of highlightText:
a non-null, nonempty string. -/
def noteTruthy : Option (List Char) → Bool
  | some s => !s.isEmpty
  | none => false

/-- A piece of the mutated DOM at the position of one original text node,
in document order: a plain text node, a span wrapping the characters of one
highlight segment (its data-annotation-id attribute is the id), or the
marker text node (a space and the memo emoji) inserted after the final
segment of an annotation carrying a note. The model tags each marker with
the id of the annotation that inserted it; the DOM text node carries no
such attribute, the tag records provenance only. -/
inductive Piece where
  | text (s : List Char)
  | span (annId : Nat) (s : List Char)
  | marker (annId : Nat)
  deriving DecidableEq, Repr

/-- The text content a piece contributes to the document. -/
def pieceText : Piece → List Char
  | .text s => s
  | .span _ s => s
  | .marker _ => [' ', '📝']

/-- The inner while loop of highlightText over sortedAnnotations, for the
text node whose walker info records global start offset `nodeStart` and
original length `origLen`. `current` is the data now held by the collected
node object and `done` the pieces already inserted after it, latest first
inserted closest. Following the source branch by branch: a head annotation
starting at or past the node end breaks the loop; one ending at or before
the node start advances the index; otherwise the segment from
`Math.max(0, startOffset - nodeStart)` (truncated subtraction) to
`min origLen (endOffset - nodeStart)` is computed against the ORIGINAL
walker length, and when it is nonempty a Range is set on the current node
object: setStart throws when its offset exceeds the current node length and
setEnd likewise (the exception is caught and nothing changes); on success
surroundContents keeps the prefix before the segment in the node object,
wraps the segment characters of the CURRENT data in a span, reinserts the
rest after it and, when the annotation carries a truthy note and the
segment reaches its end offset, inserts the marker right after the span.
An annotation ending at or before the node end is then consumed; one
ending past the node ends the loop and is kept for the following nodes.
`segmentStep` is the segment computation with the guarded try block, and
`processNode` the loop around it. -/
def segmentStep (nodeStart origLen : Nat) (a : AnnotationRow)
    (current : List Char) (done : List Piece) : List Char × List Piece :=
  let s := a.startOffset - nodeStart
  let e := min origLen (a.endOffset - nodeStart)
  if s < e then
    if s ≤ current.length ∧ e ≤ current.length then
      (current.take s,
        Piece.span a.id ((current.take e).drop s) ::
          ((if noteTruthy a.note ∧ a.endOffset ≤ nodeStart + e then
              [Piece.marker a.id]
            else []) ++
            (Piece.text (current.drop e) :: done)))
    else (current, done)
  else (current, done)

def processNode (nodeStart origLen : Nat) :
    List AnnotationRow → List Char → List Piece →
      List Char × List Piece × List AnnotationRow
  | [], current, done => (current, done, [])
  | a :: rest, current, done =>
    if nodeStart + origLen ≤ a.startOffset then
      (current, done, a :: rest)
    else if a.endOffset ≤ nodeStart then
      processNode nodeStart origLen rest current done
    else
      if a.endOffset ≤ nodeStart + origLen then
        processNode nodeStart origLen rest
          (segmentStep nodeStart origLen a current done).1
          (segmentStep nodeStart origLen a current done).2
      else
        ((segmentStep nodeStart origLen a current done).1,
          (segmentStep nodeStart origLen a current done).2, a :: rest)

/-- The TreeWalker pass of highlightText: the text nodes of the document in
order, paired with their global start offsets; nodes of length zero are
skipped and do not advance the offset. -/
def nodeInfos (off : Nat) : List (List Char) → List (Nat × List Char)
  | [] => []
  | t :: rest =>
    if 0 < t.length then (off, t) :: nodeInfos (off + t.length) rest
    else nodeInfos off rest

/-- The outer loop of highlightText over the collected text nodes: once all
annotations are processed the remaining nodes stay untouched; a node ending
at or before the start of the current annotation is skipped; otherwise the
inner loop runs on the node. Each slot of the result lists the pieces at
the position of one original text node: the node object with its final data
first, then what was inserted after it. -/
def processNodes : List (Nat × List Char) → List AnnotationRow →
    List (List Piece)
  | [], _ => []
  | (off, t) :: rest, anns =>
    match anns with
    | [] => [Piece.text t] :: processNodes rest []
    | a :: _ =>
      if off + t.length ≤ a.startOffset then
        [Piece.text t] :: processNodes rest anns
      else
        (Piece.text (processNode off t.length anns t []).1
            :: (processNode off t.length anns t []).2.1)
          :: processNodes rest (processNode off t.length anns t []).2.2

/-- The comparator sort at the top of highlightText: by startOffset
ascending, ties by endOffset descending (longest first); JS sort is stable,
so an annotation strictly precedes another exactly when its start is
smaller or, at an equal start, its end is larger. -/
def annRowPrecedes (a b : AnnotationRow) : Bool :=
  decide (a.startOffset < b.startOffset
    ∨ (a.startOffset = b.startOffset ∧ b.endOffset < a.endOffset))

/-- sortedAnnotations of highlightText. -/
def sortedAnnotationRows (l : List AnnotationRow) : List AnnotationRow :=
  sortByPrec annRowPrecedes l

/-- highlightText of the document viewer, on a document whose DOM text
nodes hold the given character lists, with the stored annotations of the
document. The result is the slot list of the mutated DOM. -/
def highlightText (nodes : List (List Char)) (anns : List AnnotationRow) :
    List (List Piece) :=
  processNodes (nodeInfos 0 nodes) (sortedAnnotationRows anns)

/-- The text content a piece contributes, with marker text nodes ignored. -/
def pieceTextNoMarker : Piece → List Char
  | .text s => s
  | .span _ s => s
  | .marker _ => []

/-- The text content of a piece list. -/
def piecesText (pieces : List Piece) : List Char :=
  (pieces.map pieceText).flatten

/-- The text content of a piece list with markers removed. -/
def piecesTextNoMarkers (pieces : List Piece) : List Char :=
  (pieces.map pieceTextNoMarker).flatten

/-- The text content of the resulting DOM. -/
def slotsText (slots : List (List Piece)) : List Char :=
  (slots.map piecesText).flatten

/-- The text content of the resulting DOM with the marker text nodes
removed. -/
def slotsTextNoMarkers (slots : List (List Piece)) : List Char :=
  (slots.map piecesTextNoMarkers).flatten

/-- The content a piece contributes to the highlighted text of a given
annotation id. -/
def pieceSpanText (annId : Nat) : Piece → List Char
  | .span i s => if i = annId then s else []
  | _ => []

/-- The concatenated contents of the spans carrying a given
data-annotation-id, in document order. -/
def spanTextFor (annId : Nat) (slots : List (List Piece)) : List Char :=
  (slots.map fun slot => (slot.map (pieceSpanText annId)).flatten).flatten

/-- The number of marker text nodes a given annotation inserted into a
piece list. -/
def markerCount (annId : Nat) (pieces : List Piece) : Nat :=
  (pieces.filter fun p =>
    match p with
    | .marker i => i == annId
    | _ => false).length

/-- The number of marker text nodes a given annotation inserted into the
document. -/
def markerCountFor (annId : Nat) (slots : List (List Piece)) : Nat :=
  (slots.map (markerCount annId)).sum

/-- Every marker text node stands immediately after a span, and it carries
the id of that span: the adjacency the marker insertion point
(insertBefore at the span nextSibling) establishes. -/
def markersFollowSpans : List Piece → Bool
  | [] => true
  | .marker _ :: _ => false
  | .text _ :: rest => markersFollowSpans rest
  | .span i _ :: .marker j :: rest => i == j && markersFollowSpans rest
  | .span _ _ :: rest => markersFollowSpans rest

/-- C2 (evaluation of the code at the failing input): on a document with
the single text node abcdefghij and stored annotations 1 and 2 with the
in-range, overlapping ranges [0, 4) and [2, 6), highlightText wraps the
characters a, b, c, d of annotation 1 in its span but leaves annotation 2
with no span at all: its segment offsets are computed against the
pre-mutation node, the Range calls on the mutated node throw, the exception
is caught and swallowed, and the annotation is consumed without a
highlight; the claim requires its characters c, d, e, f to be wrapped. -/
theorem highlightText_overlap_drops_second :
    spanTextFor 1 (highlightText ["abcdefghij".toList]
        [⟨1, 5, "highlight".toList, "abcd".toList, none, "orange".toList,
          1, 0, 4, 0, 0⟩,
         ⟨2, 5, "highlight".toList, "cdef".toList, none, "orange".toList,
          1, 2, 6, 1, 1⟩])
      = "abcd".toList
    ∧ spanTextFor 2 (highlightText ["abcdefghij".toList]
        [⟨1, 5, "highlight".toList, "abcd".toList, none, "orange".toList,
          1, 0, 4, 0, 0⟩,
         ⟨2, 5, "highlight".toList, "cdef".toList, none, "orange".toList,
          1, 2, 6, 1, 1⟩])
      = []
    ∧ jsSubstring "abcdefghij".toList 2 6 = "cdef".toList :=
  ⟨rfl, rfl, rfl⟩

/-- C8 counterexample: with the same two overlapping in-range annotations
both carrying truthy notes, annotation 2 adds no text at all: it receives
no highlighted segment and no marker, and the output text holds exactly one
marker, the one after the final segment of annotation 1 — not one per noted
annotation as the claim states. -/
theorem note_marker_counterexample :
    slotsText (highlightText ["abcdefghij".toList]
        [⟨1, 5, "note".toList, "abcd".toList, some "x".toList,
          "orange".toList, 1, 0, 4, 0, 0⟩,
         ⟨2, 5, "note".toList, "cdef".toList, some "y".toList,
          "orange".toList, 1, 2, 6, 1, 1⟩])
      = "abcd 📝efghij".toList
    ∧ markerCountFor 2 (highlightText ["abcdefghij".toList]
        [⟨1, 5, "note".toList, "abcd".toList, some "x".toList,
          "orange".toList, 1, 0, 4, 0, 0⟩,
         ⟨2, 5, "note".toList, "cdef".toList, some "y".toList,
          "orange".toList, 1, 2, 6, 1, 1⟩])
      = 0
    ∧ spanTextFor 2 (highlightText ["abcdefghij".toList]
        [⟨1, 5, "note".toList, "abcd".toList, some "x".toList,
          "orange".toList, 1, 0, 4, 0, 0⟩,
         ⟨2, 5, "note".toList, "cdef".toList, some "y".toList,
          "orange".toList, 1, 2, 6, 1, 1⟩])
      = []
    ∧ noteTruthy (some "y".toList) = true :=
  ⟨rfl, rfl, rfl, rfl⟩

theorem piecesTextNoMarkers_nil : piecesTextNoMarkers [] = [] := rfl

theorem piecesTextNoMarkers_cons (p : Piece) (ps : List Piece) :
    piecesTextNoMarkers (p :: ps) = pieceTextNoMarker p ++ piecesTextNoMarkers ps := by
  simp [piecesTextNoMarkers]

theorem piecesTextNoMarkers_append (l1 l2 : List Piece) :
    piecesTextNoMarkers (l1 ++ l2) = piecesTextNoMarkers l1 ++ piecesTextNoMarkers l2 := by
  simp [piecesTextNoMarkers]

theorem markerCount_nil (i : Nat) : markerCount i [] = 0 := rfl

theorem markerCount_cons_text (i : Nat) (s : List Char) (ps : List Piece) :
    markerCount i (.text s :: ps) = markerCount i ps := rfl

theorem markerCount_cons_span (i j : Nat) (s : List Char) (ps : List Piece) :
    markerCount i (.span j s :: ps) = markerCount i ps := rfl

theorem markerCount_cons_marker (i j : Nat) (ps : List Piece) :
    markerCount i (.marker j :: ps)
      = (if j = i then 1 else 0) + markerCount i ps := by
  by_cases h : j = i <;> (simp [markerCount, List.filter_cons, h]; try omega)

theorem markerCount_append (i : Nat) (l1 l2 : List Piece) :
    markerCount i (l1 ++ l2) = markerCount i l1 + markerCount i l2 := by
  simp [markerCount, List.filter_append]

theorem take_append_drop_take (l : List Char) (s e : Nat) (h : s ≤ e) :
    l.take s ++ (l.take e).drop s = l.take e := by
  conv_rhs => rw [← List.take_append_drop s (l.take e)]
  rw [List.take_take, Nat.min_eq_left h]

/-- The segment step preserves the markerless text at the node position. -/
theorem segmentStep_text (ns len : Nat) (a : AnnotationRow)
    (current : List Char) (done : List Piece) :
    (segmentStep ns len a current done).1
        ++ piecesTextNoMarkers (segmentStep ns len a current done).2
      = current ++ piecesTextNoMarkers done := by
  unfold segmentStep
  by_cases hse : a.startOffset - ns < min len (a.endOffset - ns)
  · rw [if_pos hse]
    by_cases hb : a.startOffset - ns ≤ current.length
        ∧ min len (a.endOffset - ns) ≤ current.length
    · rw [if_pos hb]
      simp only [piecesTextNoMarkers_cons, piecesTextNoMarkers_append,
        pieceTextNoMarker]
      have hm : piecesTextNoMarkers
          (if noteTruthy a.note ∧ a.endOffset ≤ ns + min len (a.endOffset - ns)
            then [Piece.marker a.id] else []) = [] := by
        split <;> rfl
      rw [hm]
      simp only [List.nil_append, List.append_assoc]
      rw [← List.append_assoc, take_append_drop_take current _ _
        (Nat.le_of_lt hse)]
      rw [← List.append_assoc, List.take_append_drop]
    · rw [if_neg hb]
  · rw [if_neg hse]

/-- The markers the segment step adds carry the id of the processed
annotation, and none is added when the annotation ends past the node. -/
theorem segmentStep_markerCount (ns len : Nat) (a : AnnotationRow)
    (current : List Char) (done : List Piece) (i : Nat) :
    markerCount i (segmentStep ns len a current done).2
        ≤ (if a.id = i then 1 else 0) + markerCount i done
    ∧ (¬ a.endOffset ≤ ns + len →
        markerCount i (segmentStep ns len a current done).2
          = markerCount i done) := by
  unfold segmentStep
  by_cases hse : a.startOffset - ns < min len (a.endOffset - ns)
  · rw [if_pos hse]
    by_cases hb : a.startOffset - ns ≤ current.length
        ∧ min len (a.endOffset - ns) ≤ current.length
    · rw [if_pos hb]
      by_cases hmk : noteTruthy a.note
          ∧ a.endOffset ≤ ns + min len (a.endOffset - ns)
      · rw [if_pos hmk]
        refine ⟨?_, fun hpast => ?_⟩
        · dsimp only
          simp only [markerCount_cons_span, List.singleton_append,
            markerCount_cons_marker, markerCount_cons_text]
          omega
        · exfalso
          have h2 := hmk.2
          have hmin : min len (a.endOffset - ns) ≤ len := Nat.min_le_left _ _
          omega
      · rw [if_neg hmk]
        refine ⟨?_, fun _ => ?_⟩
        · dsimp only
          simp only [markerCount_cons_span, List.nil_append,
            markerCount_cons_text]
          omega
        · dsimp only
          simp only [markerCount_cons_span, List.nil_append,
            markerCount_cons_text]
    · rw [if_neg hb]
      refine ⟨?_, fun _ => rfl⟩
      show markerCount i done ≤ (if a.id = i then 1 else 0) + markerCount i done
      omega
  · rw [if_neg hse]
    refine ⟨?_, fun _ => rfl⟩
    show markerCount i done ≤ (if a.id = i then 1 else 0) + markerCount i done
    omega

/-- The segment step keeps every marker immediately after its span. -/
theorem segmentStep_follows (ns len : Nat) (a : AnnotationRow)
    (current : List Char) (done : List Piece)
    (h : markersFollowSpans done = true) :
    markersFollowSpans (segmentStep ns len a current done).2 = true := by
  unfold segmentStep
  by_cases hse : a.startOffset - ns < min len (a.endOffset - ns)
  · rw [if_pos hse]
    by_cases hb : a.startOffset - ns ≤ current.length
        ∧ min len (a.endOffset - ns) ≤ current.length
    · rw [if_pos hb]
      by_cases hmk : noteTruthy a.note
          ∧ a.endOffset ≤ ns + min len (a.endOffset - ns)
      · rw [if_pos hmk]
        simp [markersFollowSpans, h]
      · rw [if_neg hmk]
        simp [markersFollowSpans, h]
    · rw [if_neg hb]
      exact h
  · rw [if_neg hse]
    exact h

/-- The segment step adds no marker for an annotation with no truthy
note. -/
theorem segmentStep_no_note_no_marker (ns len : Nat) (a : AnnotationRow)
    (current : List Char) (done : List Piece) (i : Nat)
    (hn : noteTruthy a.note = false) :
    markerCount i (segmentStep ns len a current done).2
      = markerCount i done := by
  unfold segmentStep
  by_cases hse : a.startOffset - ns < min len (a.endOffset - ns)
  · rw [if_pos hse]
    by_cases hb : a.startOffset - ns ≤ current.length
        ∧ min len (a.endOffset - ns) ≤ current.length
    · rw [if_pos hb]
      have hmk : ¬ (noteTruthy a.note
          ∧ a.endOffset ≤ ns + min len (a.endOffset - ns)) := by
        intro hc
        rw [hn] at hc
        exact absurd hc.1 (by simp)
      rw [if_neg hmk]
      simp only [markerCount_cons_span, List.nil_append, markerCount_cons_text]
    · rw [if_neg hb]
  · rw [if_neg hse]

/-- The inner loop preserves the markerless text at the node position. -/
theorem processNode_text (ns len : Nat) (L : List AnnotationRow) :
    ∀ (current : List Char) (done : List Piece),
      (processNode ns len L current done).1
          ++ piecesTextNoMarkers (processNode ns len L current done).2.1
        = current ++ piecesTextNoMarkers done := by
  induction L with
  | nil =>
    intro current done
    rfl
  | cons a rest ih =>
    intro current done
    unfold processNode
    by_cases h1 : ns + len ≤ a.startOffset
    · rw [if_pos h1]
    · rw [if_neg h1]
      by_cases h2 : a.endOffset ≤ ns
      · rw [if_pos h2]
        exact ih current done
      · rw [if_neg h2]
        by_cases h3 : a.endOffset ≤ ns + len
        · rw [if_pos h3]
          exact (ih _ _).trans (segmentStep_text ns len a current done)
        · rw [if_neg h3]
          exact segmentStep_text ns len a current done

/-- The annotations the inner loop hands to the following nodes come from
its input list. -/
theorem processNode_rest_subset (ns len : Nat) (L : List AnnotationRow) :
    ∀ (current : List Char) (done : List Piece) (x : AnnotationRow),
      x ∈ (processNode ns len L current done).2.2 → x ∈ L := by
  induction L with
  | nil =>
    intro current done x hx
    exact absurd hx (by simp [processNode])
  | cons a rest ih =>
    intro current done x hx
    unfold processNode at hx
    by_cases h1 : ns + len ≤ a.startOffset
    · rw [if_pos h1] at hx
      exact hx
    · rw [if_neg h1] at hx
      by_cases h2 : a.endOffset ≤ ns
      · rw [if_pos h2] at hx
        exact List.mem_cons_of_mem a (ih current done x hx)
      · rw [if_neg h2] at hx
        by_cases h3 : a.endOffset ≤ ns + len
        · rw [if_pos h3] at hx
          exact List.mem_cons_of_mem a (ih _ _ x hx)
        · rw [if_neg h3] at hx
          exact hx

/-- The markers the inner loop adds are counted by the annotations it
consumes: the marker count of the node plus the id count of the annotations
left over never exceeds the marker count already present plus the id count
of the annotations given. -/
theorem processNode_markerCount (ns len i : Nat) (L : List AnnotationRow) :
    ∀ (current : List Char) (done : List Piece),
      markerCount i (processNode ns len L current done).2.1
          + ((processNode ns len L current done).2.2.map
              (fun a => a.id)).count i
        ≤ markerCount i done + (L.map (fun a => a.id)).count i := by
  induction L with
  | nil =>
    intro current done
    simp [processNode]
  | cons a rest ih =>
    intro current done
    have hcons : ((a :: rest).map (fun a => a.id)).count i
        = (rest.map (fun a => a.id)).count i + (if a.id = i then 1 else 0) := by
      simp [List.count_cons]
    unfold processNode
    by_cases h1 : ns + len ≤ a.startOffset
    · rw [if_pos h1]
    · rw [if_neg h1]
      by_cases h2 : a.endOffset ≤ ns
      · rw [if_pos h2]
        have := ih current done
        omega
      · rw [if_neg h2]
        by_cases h3 : a.endOffset ≤ ns + len
        · rw [if_pos h3]
          have hstep := (segmentStep_markerCount ns len a current done i).1
          have := ih (segmentStep ns len a current done).1
            (segmentStep ns len a current done).2
          omega
        · rw [if_neg h3]
          have hstep := (segmentStep_markerCount ns len a current done i).2 h3
          dsimp only
          omega

/-- The inner loop keeps every marker immediately after its span. -/
theorem processNode_follows (ns len : Nat) (L : List AnnotationRow) :
    ∀ (current : List Char) (done : List Piece),
      markersFollowSpans done = true →
      markersFollowSpans (processNode ns len L current done).2.1 = true := by
  induction L with
  | nil =>
    intro current done h
    exact h
  | cons a rest ih =>
    intro current done h
    unfold processNode
    by_cases h1 : ns + len ≤ a.startOffset
    · rw [if_pos h1]
      exact h
    · rw [if_neg h1]
      by_cases h2 : a.endOffset ≤ ns
      · rw [if_pos h2]
        exact ih current done h
      · rw [if_neg h2]
        by_cases h3 : a.endOffset ≤ ns + len
        · rw [if_pos h3]
          exact ih _ _ (segmentStep_follows ns len a current done h)
        · rw [if_neg h3]
          exact segmentStep_follows ns len a current done h

/-- With no truthy note among the annotations, the inner loop adds no
marker. -/
theorem processNode_no_note (ns len i : Nat) (L : List AnnotationRow) :
    ∀ (current : List Char) (done : List Piece),
      (∀ a ∈ L, noteTruthy a.note = false) →
      markerCount i (processNode ns len L current done).2.1
        = markerCount i done := by
  induction L with
  | nil =>
    intro current done _
    rfl
  | cons a rest ih =>
    intro current done hn
    have ha : noteTruthy a.note = false := hn a (List.mem_cons_self a rest)
    have hrest : ∀ b ∈ rest, noteTruthy b.note = false :=
      fun b hb => hn b (List.mem_cons_of_mem a hb)
    unfold processNode
    by_cases h1 : ns + len ≤ a.startOffset
    · rw [if_pos h1]
    · rw [if_neg h1]
      by_cases h2 : a.endOffset ≤ ns
      · rw [if_pos h2]
        exact ih current done hrest
      · rw [if_neg h2]
        by_cases h3 : a.endOffset ≤ ns + len
        · rw [if_pos h3]
          rw [ih _ _ hrest]
          exact segmentStep_no_note_no_marker ns len a current done i ha
        · rw [if_neg h3]
          exact segmentStep_no_note_no_marker ns len a current done i ha

theorem slotsTextNoMarkers_cons (slot : List Piece) (slots : List (List Piece)) :
    slotsTextNoMarkers (slot :: slots)
      = piecesTextNoMarkers slot ++ slotsTextNoMarkers slots := by
  simp [slotsTextNoMarkers]

theorem markerCountFor_cons (i : Nat) (slot : List Piece)
    (slots : List (List Piece)) :
    markerCountFor i (slot :: slots)
      = markerCount i slot + markerCountFor i slots := by
  simp [markerCountFor]

/-- The outer loop leaves exactly the text of the walker infos, markers
aside. -/
theorem processNodes_text (infos : List (Nat × List Char)) :
    ∀ L, slotsTextNoMarkers (processNodes infos L)
      = (infos.map Prod.snd).flatten := by
  induction infos with
  | nil =>
    intro L
    rfl
  | cons p rest ih =>
    obtain ⟨off, t⟩ := p
    intro L
    unfold processNodes
    cases L with
    | nil =>
      rw [slotsTextNoMarkers_cons, ih]
      simp [piecesTextNoMarkers, pieceTextNoMarker]
    | cons a L2 =>
      dsimp only
      by_cases hskip : off + t.length ≤ a.startOffset
      · rw [if_pos hskip, slotsTextNoMarkers_cons, ih]
        simp [piecesTextNoMarkers, pieceTextNoMarker]
      · rw [if_neg hskip, slotsTextNoMarkers_cons, ih]
        have htext := processNode_text off t.length (a :: L2) t []
        rw [piecesTextNoMarkers_cons]
        simp only [pieceTextNoMarker]
        simp only [piecesTextNoMarkers_nil, List.append_nil] at htext
        rw [htext]
        simp

/-- The outer loop adds at most one marker per occurrence of an annotation
id. -/
theorem processNodes_markerCount (i : Nat) (infos : List (Nat × List Char)) :
    ∀ L, markerCountFor i (processNodes infos L)
      ≤ (L.map (fun a => a.id)).count i := by
  induction infos with
  | nil =>
    intro L
    simp [processNodes, markerCountFor]
  | cons p rest ih =>
    obtain ⟨off, t⟩ := p
    intro L
    unfold processNodes
    cases L with
    | nil =>
      rw [markerCountFor_cons]
      have := ih ([] : List AnnotationRow)
      simp only [markerCount_cons_text, markerCount_nil]
      simpa using this
    | cons a L2 =>
      dsimp only
      by_cases hskip : off + t.length ≤ a.startOffset
      · rw [if_pos hskip, markerCountFor_cons]
        have := ih (a :: L2)
        have h0 : markerCount i ([] : List Piece) = 0 := rfl
        simp only [markerCount_cons_text]
        omega
      · rw [if_neg hskip, markerCountFor_cons]
        have hnode := processNode_markerCount off t.length i (a :: L2) t []
        have hrest := ih (processNode off t.length (a :: L2) t []).2.2
        have h0 : markerCount i ([] : List Piece) = 0 := rfl
        simp only [markerCount_cons_text]
        omega

/-- Every marker of the output stands immediately after the span of its
annotation. -/
theorem processNodes_follows (infos : List (Nat × List Char)) :
    ∀ L slot, slot ∈ processNodes infos L →
      markersFollowSpans slot = true := by
  induction infos with
  | nil =>
    intro L slot h
    exact absurd h (by simp [processNodes])
  | cons p rest ih =>
    obtain ⟨off, t⟩ := p
    intro L slot h
    unfold processNodes at h
    cases L with
    | nil =>
      rcases List.mem_cons.mp h with rfl | h2
      · rfl
      · exact ih [] slot h2
    | cons a L2 =>
      dsimp only at h
      by_cases hskip : off + t.length ≤ a.startOffset
      · rw [if_pos hskip] at h
        rcases List.mem_cons.mp h with rfl | h2
        · rfl
        · exact ih (a :: L2) slot h2
      · rw [if_neg hskip] at h
        rcases List.mem_cons.mp h with rfl | h2
        · show markersFollowSpans (Piece.text _ :: _) = true
          show markersFollowSpans (processNode off t.length (a :: L2) t []).2.1
            = true
          exact processNode_follows off t.length (a :: L2) t [] rfl
        · exact ih _ slot h2

/-- With no truthy note among the annotations, the outer loop adds no
marker at all. -/
theorem processNodes_no_note (i : Nat) (infos : List (Nat × List Char)) :
    ∀ L, (∀ a ∈ L, noteTruthy a.note = false) →
      markerCountFor i (processNodes infos L) = 0 := by
  induction infos with
  | nil =>
    intro L _
    rfl
  | cons p rest ih =>
    obtain ⟨off, t⟩ := p
    intro L hn
    unfold processNodes
    cases L with
    | nil =>
      rw [markerCountFor_cons, ih [] (by simp)]
      rfl
    | cons a L2 =>
      dsimp only
      by_cases hskip : off + t.length ≤ a.startOffset
      · rw [if_pos hskip, markerCountFor_cons, ih (a :: L2) hn]
        rfl
      · rw [if_neg hskip, markerCountFor_cons]
        have hnode := processNode_no_note off t.length i (a :: L2) t [] hn
        have hrest := ih (processNode off t.length (a :: L2) t []).2.2
          (fun b hb => hn b
            (processNode_rest_subset off t.length (a :: L2) t [] b hb))
        have h0 : markerCount i ([] : List Piece) = 0 := rfl
        simp only [markerCount_cons_text]
        omega

theorem nodeInfos_flatten (nodes : List (List Char)) :
    ∀ off, ((nodeInfos off nodes).map Prod.snd).flatten = nodes.flatten := by
  induction nodes with
  | nil =>
    intro off
    rfl
  | cons t rest ih =>
    intro off
    unfold nodeInfos
    by_cases h : 0 < t.length
    · rw [if_pos h]
      simp [ih]
    · rw [if_neg h]
      have ht : t = [] := List.length_eq_zero.mp (by omega)
      subst ht
      simp [ih]

theorem piecesText_cons (p : Piece) (ps : List Piece) :
    piecesText (p :: ps) = pieceText p ++ piecesText ps := by
  simp [piecesText]

theorem slotsText_cons (slot : List Piece) (slots : List (List Piece)) :
    slotsText (slot :: slots) = piecesText slot ++ slotsText slots := by
  simp [slotsText]

/-- A piece list holding no marker contributes the same text with or
without markers counted. -/
theorem piecesText_eq_noMarkers (l : List Piece)
    (h : ∀ j, markerCount j l = 0) :
    piecesText l = piecesTextNoMarkers l := by
  induction l with
  | nil => rfl
  | cons p ps ih =>
    cases p with
    | text s =>
      have hps : ∀ j, markerCount j ps = 0 := fun j => h j
      rw [piecesText_cons, piecesTextNoMarkers_cons, ih hps]
      rfl
    | span k s =>
      have hps : ∀ j, markerCount j ps = 0 := fun j => h j
      rw [piecesText_cons, piecesTextNoMarkers_cons, ih hps]
      rfl
    | marker k =>
      exfalso
      have := h k
      rw [markerCount_cons_marker, if_pos rfl] at this
      omega

theorem slotsText_eq_noMarkers (slots : List (List Piece))
    (h : ∀ slot ∈ slots, ∀ j, markerCount j slot = 0) :
    slotsText slots = slotsTextNoMarkers slots := by
  induction slots with
  | nil => rfl
  | cons slot rest ih =>
    rw [slotsText_cons, slotsTextNoMarkers_cons]
    rw [piecesText_eq_noMarkers slot (h slot (List.mem_cons_self slot rest))]
    rw [ih fun s hs j => h s (List.mem_cons_of_mem slot hs) j]

/-- C8 amended: highlightText preserves the document text up to the note
markers. For every annotation list in which no annotation carries a truthy
note, the text content of the result equals the text content of the input;
in general the text with the markers removed equals the input text, every
marker stands immediately after a span of its own annotation (the final
highlighted segment that reached the annotation end offset), and, for
stored annotations with distinct ids, each annotation inserts at most one
marker. (The original claim fails because an annotation with a note whose
final segment cannot be highlighted, such as the second of two annotations
sharing a text node, adds no marker at all.) -/
theorem highlightText_text_frame :
    (∀ nodes anns, (∀ a ∈ anns, noteTruthy a.note = false) →
      slotsText (highlightText nodes anns) = nodes.flatten)
    ∧ (∀ nodes anns,
        slotsTextNoMarkers (highlightText nodes anns) = nodes.flatten)
    ∧ (∀ nodes anns slot, slot ∈ highlightText nodes anns →
        markersFollowSpans slot = true)
    ∧ (∀ nodes anns i, (anns.map fun a => a.id).Nodup →
        markerCountFor i (highlightText nodes anns) ≤ 1) := by
  have h2 : ∀ nodes anns,
      slotsTextNoMarkers (highlightText nodes anns) = nodes.flatten := by
    intro nodes anns
    unfold highlightText
    rw [processNodes_text, nodeInfos_flatten]
  refine ⟨?_, h2, ?_, ?_⟩
  · intro nodes anns hn
    have hnosort : ∀ a ∈ sortedAnnotationRows anns,
        noteTruthy a.note = false := fun a ha =>
      hn a ((mem_sortByPrec annRowPrecedes anns a).mp ha)
    have hzero : ∀ j, markerCountFor j (highlightText nodes anns) = 0 :=
      fun j => processNodes_no_note j (nodeInfos 0 nodes)
        (sortedAnnotationRows anns) hnosort
    have hslot : ∀ slot ∈ highlightText nodes anns,
        ∀ j, markerCount j slot = 0 := by
      intro slot hs j
      have hsum := hzero j
      unfold markerCountFor at hsum
      have hmem : markerCount j slot
          ∈ (highlightText nodes anns).map (markerCount j) :=
        List.mem_map_of_mem _ hs
      have hle := List.single_le_sum
        (fun x _ => Nat.zero_le x) _ hmem
      omega
    rw [slotsText_eq_noMarkers _ hslot]
    exact h2 nodes anns
  · intro nodes anns slot hs
    exact processNodes_follows (nodeInfos 0 nodes)
      (sortedAnnotationRows anns) slot hs
  · intro nodes anns i hnd
    have hb := processNodes_markerCount i (nodeInfos 0 nodes)
      (sortedAnnotationRows anns)
    have hperm : (sortedAnnotationRows anns).Perm anns :=
      sortByPrec_perm annRowPrecedes anns
    have hcnt : ((sortedAnnotationRows anns).map (fun a => a.id)).count i
        = (anns.map (fun a => a.id)).count i :=
      (hperm.map (fun a => a.id)).count_eq i
    have hle1 : (anns.map (fun a => a.id)).count i ≤ 1 :=
      List.nodup_iff_count_le_one.mp hnd i
    show markerCountFor i (highlightText nodes anns) ≤ 1
    unfold highlightText
    omega

end SECInsightHub
